import Mathlib

/-!
Verification development for the zon build evaluator (Go sources under
src/).  The expression and value model, the map-extension semantics, the
fingerprint byte-stream, the output materializer and the link projector
are embedded as executable Lean definitions, translated from the Go
sources named next to each definition.  Effects of the materializer and
the projector (filesystem removals, subprocess execution, symlinking)
are recorded as explicit action traces; the ambient filesystem and
randomness are threaded as a read-only `World`.
-/

/-- Source position, from `Position` in src/unnamed/part_002 (fields
Filename, Line, Offset). -/
structure Position where
  filename : String
  line : Nat
  offset : Nat
deriving DecidableEq, Repr

/-- The zero value of the Go `Position` struct, used by composite
literals that omit the position (for example `PathExpr{Name: …}` in
`OutputExpr.Resolve`). -/
def Position.empty : Position := ⟨"", 0, 0⟩

/-- Path value, from `PathExpr` in src/types/output.go (fields Name and
Depends, a list of further path values). -/
inductive PathV where
  | mk (pos : Position) (name : String) (depends : List PathV)

/-- Accessor for the position of a `PathV`. -/
def PathV.pos : PathV → Position
  | .mk p _ _ => p

/-- Accessor for the `Name` field of a `PathV`. -/
def PathV.name : PathV → String
  | .mk _ n _ => n

/-- Accessor for the `Depends` field of a `PathV`. -/
def PathV.depends : PathV → List PathV
  | .mk _ _ d => d

/-- Expressions, from the `Expression` implementations in src/types/
(StringExpr, NumberExpr, BooleanExpr, PathExpr, ArrayExpr, MapExpr,
VarExpr, AttributeExpr, LambdaExpr, OutputExpr).  A `StringExpr` is the
pairing of its `Content` and `Interp` slices, which the parser keeps at
equal length, as a single chunk list.  The number payload (Go float64)
is carried as an integer: the evaluator never computes with it, it only
stores and reprints it.  `IncludeExpr` and `DefineExpr` are omitted: no
claim touches them. -/
inductive Expr where
  | str (pos : Position) (chunks : List (String × Option Expr))
  | num (pos : Position) (val : Int)
  | bool (pos : Position) (val : Bool)
  | path (p : PathV)
  | arr (pos : Position) (exprs : List Expr)
  | map (pos : Position) (ext : List Expr) (entries : List Expr)
  | var (pos : Position) (name : String) (args : List Expr)
  | attr (pos : Position) (base : Expr) (name : String)
  | lam (pos : Position) (args : List String) (body : Expr)
  | output (pos : Position) (attrs : Expr)

/-- Values, from the `Value` implementations in src/types/ (StringValue,
NumberExpr, BooleanExpr, PathExpr, ArrayValue, MapValue, LambdaExpr;
number, boolean, path and lambda expressions are their own values).  The
Go `MapValue.Values` hash map is carried as an association list with at
most one binding per key (maintained by insert-with-overwrite). -/
inductive Value where
  | str (pos : Position) (content : String)
  | num (pos : Position) (val : Int)
  | bool (pos : Position) (val : Bool)
  | path (p : PathV)
  | arr (pos : Position) (values : List Value)
  | map (pos : Position) (values : List (String × Value))
  | lam (pos : Position) (args : List String) (body : Expr)

/-- `Pos()` of a value (every Go variant embeds `Position`). -/
def Value.position : Value → Position
  | .str p _ => p
  | .num p _ => p
  | .bool p _ => p
  | .path pv => pv.pos
  | .arr p _ => p
  | .map p _ => p
  | .lam p _ _ => p

/-- A scope binding, from `Variable` in src/types (fields Expr and the
captured Scope), as constructed in src/types/reference.go. -/
inductive Variable where
  | mk (expr : Expr) (scope : List (String × Variable))

/-- `Scope`, the Go `map[string]Variable`, as an association list. -/
abbrev Scope := List (String × Variable)

/-- Lookup in a Go map carried as an association list (keys unique). -/
def lookupA {α : Type} : List (String × α) → String → Option α
  | [], _ => none
  | (k, v) :: rest, key => if k = key then some v else lookupA rest key

/-- Go map assignment `m[k] = v`: overwrite the binding when the key is
present, append it otherwise. -/
def insertA {α : Type} : List (String × α) → String → α → List (String × α)
  | [], k, v => [(k, v)]
  | (k', v') :: rest, k, v =>
      if k' = k then (k, v) :: rest else (k', v') :: insertA rest k v

/-- `maps.Copy(dst, src)`: assign every binding of `src` into `dst`,
overwriting keys already present (Go maps.Copy semantics). -/
def copyA {α : Type} (dst : List (String × α)) (src : List (String × α)) : List (String × α) :=
  src.foldl (fun d kv => insertA d kv.1 kv.2) dst

/-- Evaluator configuration, the scalar fields of `Evaluator` in
src/unnamed/part_002. -/
structure EvalCfg where
  force : Bool
  dryRun : Bool
  serial : Bool
  cacheDir : String
  logDir : String
  interpreter : String

/-- The ambient state read by the materializer, the fingerprint engine
and the link projector: working directory, `os.Stat` existence probe,
the rendering `fmt.Fprint(w, s.ModTime(), s.Mode())` of a successful
stat (`none` models a stat error), `os.Lstat` symlink-ness of an
existing entry (`none` models a failing lstat), the fresh temporary
directory `os.MkdirTemp` would yield, the `math/rand` byte stream, and
the exit status of `cmd.Run` per command line. -/
structure World where
  cwd : String
  tempDir : String
  pathExists : String → Bool
  statStr : String → Option String
  lstatIsSymlink : String → Option Bool
  rngByte : Nat → Nat
  execOk : List String → Bool

/-- Error taxonomy: each constructor mirrors one `fmt.Errorf` (or Go
runtime panic) site in the sources, carrying the same data the format
string interpolates.  `joined` mirrors `errors.Join`.  `indexPanic`
models a Go runtime out-of-range panic, `outOfFuel` the fuel bound of
the embedding (Go recursion is unbounded). -/
inductive Err where
  | outOfFuel
  | notInScope (pos : Position) (name : String)
  | arityMismatch (pos : Position) (want got : Nat)
  | expectedStringKey (pos : Position)
  | cannotExtend (pos : Position)
  | noSuchAttribute (pos : Position) (name : String)
  | noAttributes (pos : Position)
  | nonStringInterpolation (pos : Position)
  | noAttribute (pos : Position) (resultname attrname : String)
  | attrWrongType (pos : Position) (resultname attrname : String)
  | outputNonMap (pos : Position)
  | missingBuildSpec (pos : Position)
  | nonStringArg (pos : Position)
  | indexPanic
  | encodeNested (pos : Position)
  | cannotEncode (pos : Position)
  | cannotLink (pos : Position) (tyName : String)
  | refusingToClobber
  | buildFailed (tokenPos : Position) (hashstr : String) (logpath : String)
  | joined (errs : List Err)

/-- Filesystem and process effects of the materializer and the link
projector, recorded in program order. -/
inductive FsAction where
  | register (hashstr : String)
  | removeAll (path : String)
  | mkdirTemp (dir : String)
  | createLog (path : String)
  | exec (cmdline : List String) (dir : String)
  | removeEntry (path : String)
  | symlink (target linkname : String)
deriving DecidableEq, Repr

/-- `path.Join` on two segments (Go also cleans redundant separators;
the claims only concatenate clean segments). -/
def pathJoin (a b : String) : String :=
  if a = "" then b else if b = "" then a else a ++ "/" ++ b

/-- Decimal rendering of the number payload, `fmt.Fprint` of the stored
number (integral payloads print without a decimal point in Go as well). -/
def numRepr (v : Int) : String := toString v

/-- Bytes of an emitted hash-stream string; the streams the sources emit
are ASCII, so code points are bytes. -/
def strBytes (s : String) : List Nat := s.data.map Char.toNat

mutual
/-- `PathExpr.hashValue` (src/types/output.go lines 362-374): the `%T`
tag `types.PathExpr`, the filename, the rendered modification time and
mode when the stat succeeds (nothing on a stat error), then the
`Depends` recursively. -/
def pathHashValue (stat : String → Option String) : PathV → String
  | .mk _ name deps =>
      "types.PathExpr" ++ name ++ ((stat name).getD "") ++ pathHashList stat deps
def pathHashList (stat : String → Option String) : List PathV → String
  | [] => ""
  | p :: ps => pathHashValue stat p ++ pathHashList stat ps
end

/-- Concatenation of a list of strings, for `LambdaExpr.hashValue`'s
argument-name emission. -/
def joinAll (ss : List String) : String := ss.foldl (· ++ ·) ""

mutual
/-- The canonical hash byte stream of an expression, `hashValue` from
src/types/ and src/unnamed/part_006: each variant emits its tag then its
fields in program order.  Map expressions (part_006 lines 92-100) emit
the tag `map`, then the `Extends` clauses, then the entry expressions in
their textual order.  `VarExpr.hashValue` and `AttributeExpr.hashValue`
(src/types/reference.go lines 38-41 and 67-70) emit their `%T` tag and
the name only.  `stat` supplies the path-stat rendering. -/
def hashValue (stat : String → Option String) : Expr → String
  | .str _ chunks => "string" ++ hashChunks stat chunks
  | .num _ v => "number" ++ numRepr v
  | .bool _ b => "boolean" ++ (if b then "true" else "false")
  | .path pv => pathHashValue stat pv
  | .arr _ es => "array" ++ hashList stat es
  | .map _ ext es => "map" ++ hashList stat ext ++ hashList stat es
  | .var _ name _ => "types.VarExpr" ++ name
  | .attr _ _ name => "types.AttributeExpr" ++ name
  | .lam _ args body => "fn" ++ joinAll args ++ hashValue stat body
  | .output _ attrs => "types.OutputExpr" ++ hashValue stat attrs
def hashChunks (stat : String → Option String) : List (String × Option Expr) → String
  | [] => ""
  | (s, none) :: rest => s ++ hashChunks stat rest
  | (s, some e) :: rest => s ++ hashValue stat e ++ hashChunks stat rest
def hashList (stat : String → Option String) : List Expr → String
  | [] => ""
  | e :: es => hashValue stat e ++ hashList stat es
end

/-- The 128-bit FNV prime, `hash/fnv` prime128. -/
def fnvPrime128 : Nat := 309485009821345068724781371

/-- The 128-bit FNV-1 offset basis, `hash/fnv` offset128. -/
def fnvOffset128 : Nat := 144066263297769815596495629667062367629

/-- `fnv.New128` digesting a byte stream: FNV-1, multiply by the prime
modulo 2^128 then xor the byte, starting from the offset basis. -/
def fnv128 (bytes : List Nat) : Nat :=
  bytes.foldl (fun h b => (h * fnvPrime128 % 2 ^ 128) ^^^ (b % 256)) fnvOffset128

/-- Big-endian byte decomposition of a hash sum, `Sum(nil)` of the Go
hash (16 bytes for fnv128). -/
def natToBytesBE (width : Nat) (n : Nat) : List Nat :=
  (List.range width).map (fun i => n / 256 ^ (width - 1 - i) % 256)

/-- The sixteen lowercase hex digits. -/
def hexDigits : List Char := "0123456789abcdef".data

/-- One hex digit (lowercase). -/
def hexDigit (n : Nat) : Char := hexDigits.getD n '0'

/-- Two lowercase hex characters of one byte. -/
def byteToHexChars (b : Nat) : List Char := [hexDigit (b / 16 % 16), hexDigit (b % 16)]

/-- `%x` of a byte slice: lowercase hexadecimal. -/
def bytesToHex (bs : List Nat) : String := ⟨(bs.map byteToHexChars).flatten⟩

/-- Every character of a string is a lowercase hex digit. -/
def isLowerHex (s : String) : Bool := s.data.all (fun c => hexDigits.contains c)

/-- The impurity probe of `OutputExpr.Resolve` (src/types/output.go
lines 47-52): the resolved attribute set has an `impure` attribute that
is a boolean, and its value. -/
def isImpure (result : List (String × Value)) : Bool :=
  match lookupA result "impure" with
  | some (.bool _ b) => b
  | _ => false

/-- The fingerprint bytes of `OutputExpr.Resolve` (src/types/output.go
lines 54-64): sixteen fresh random bytes when the attribute set is
impure, otherwise the FNV-1 128-bit digest of the unresolved attribute
expression's hash stream. -/
def outputHashsum (w : World) (attrs : Expr) (result : List (String × Value)) : List Nat :=
  if isImpure result then (List.range 16).map w.rngByte
  else natToBytesBE 16 (fnv128 (strBytes (hashValue w.statStr attrs)))

/-- `GetValue[StringValue]` (src/types/output.go lines 14-24): look the
attribute up in the resolved map and require a string value, returning
the value's position and content. -/
def getStrValue (resultname : String) (result : List (String × Value)) (resultPos : Position)
    (name : String) : Except Err (Position × String) :=
  match lookupA result name with
  | none => .error (.noAttribute resultPos resultname name)
  | some (.str p c) => .ok (p, c)
  | some _ => .error (.attrWrongType resultPos resultname name)

/-- The `args` elements after the first, each required to be a string
(src/types/output.go lines 127-133). -/
def argStrings : List Value → Except Err (List String)
  | [] => .ok []
  | v :: vs =>
      match v with
      | .str _ s => (argStrings vs).map (s :: ·)
      | _ => .error (.nonStringArg v.position)

/-- The `args` step of `OutputExpr.Resolve` (src/types/output.go lines
122-134): when an `args` attribute is present it must be an array, the
slice `args.Values[1:]` drops its first element — a Go runtime
out-of-range panic when the array is empty — and the remaining elements,
each required to be a string, are appended to the command line. -/
def appendArgs (result : List (String × Value)) (resultPos : Position)
    (cmdline : List String) (tokenPos : Position) : Except Err (List String × Position) :=
  match lookupA result "args" with
  | none => .ok (cmdline, tokenPos)
  | some av =>
      match av with
      | .arr _ vs =>
          match vs with
          | [] => .error .indexPanic
          | _ :: rest =>
              match argStrings rest with
              | .error e => .error e
              | .ok ss => .ok (cmdline ++ ss, tokenPos)
      | _ => .error (.attrWrongType resultPos "output" "args")

/-- Script selection of `OutputExpr.Resolve` (src/types/output.go lines
92-134): an `output` script runs as `<interpreter> -e -c <script>
builder` (the interpreter overridable by an `interpreter` attribute), a
`builder` attribute is the command itself, and neither present is the
missing-build-spec error; then the `args` step.  Returns the command
line and the position of the `output`/`builder` token. -/
def buildCmdline (ev : EvalCfg) (result : List (String × Value)) (resultPos pos : Position) :
    Except Err (List String × Position) :=
  match lookupA result "output" with
  | some ov =>
      match ov with
      | .str tp script =>
          match lookupA result "interpreter" with
          | none => appendArgs result resultPos [ev.interpreter, "-e", "-c", script, "builder"] tp
          | some iv =>
              match iv with
              | .str _ i => appendArgs result resultPos [i, "-e", "-c", script, "builder"] tp
              | _ => .error (.attrWrongType resultPos "output" "interpreter")
      | _ => .error (.attrWrongType resultPos "output" "output")
  | none =>
      match lookupA result "builder" with
      | some bv =>
          match bv with
          | .str tp b => appendArgs result resultPos [b] tp
          | _ => .error (.attrWrongType resultPos "output" "builder")
      | none => .error (.missingBuildSpec pos)

/-- Working-directory selection of `OutputExpr.Resolve` (src/types/
output.go lines 136-158): a `source` attribute that is a path is used in
place; otherwise a fresh temporary directory is created and flagged for
deletion. -/
def selectBuilddir (w : World) (result : List (String × Value)) (resultPos : Position) :
    Except Err (String × List FsAction × Bool) :=
  match lookupA result "source" with
  | some sv =>
      match sv with
      | .path pv => .ok (pv.name, [], false)
      | _ => .error (.attrWrongType resultPos "output" "source")
  | none => .ok (w.tempDir, [.mkdirTemp w.tempDir], true)

/-- `encodeEnviron(false)`: nested encoding of one value (src/types/
compound.go and the literal value file): strings verbatim, numbers in
decimal, booleans as `1`/`0`, paths as their name; nested arrays and
maps, and lambdas, cannot be encoded. -/
def encodeLeaf : Value → Except Err String
  | .str _ c => .ok c
  | .num _ v => .ok (numRepr v)
  | .bool _ b => .ok (if b then "1" else "0")
  | .path pv => .ok pv.name
  | .arr p _ => .error (.encodeNested p)
  | .map p _ => .error (.encodeNested p)
  | .lam p _ _ => .error (.cannotEncode p)

/-- Leaf encodings of a list of values, first error wins. -/
def encodeListLeaf : List Value → Except Err (List String)
  | [] => .ok []
  | v :: vs =>
      match encodeLeaf v with
      | .error e => .error e
      | .ok s => (encodeListLeaf vs).map (s :: ·)

/-- `k=v` leaf encodings of a map's bindings, first error wins. -/
def encodeKVLeaf : List (String × Value) → Except Err (List String)
  | [] => .ok []
  | (k, v) :: rest =>
      match encodeLeaf v with
      | .error e => .error e
      | .ok s => (encodeKVLeaf rest).map ((k ++ "=" ++ s) :: ·)

/-- `encodeEnviron(true)`: root encoding of one value — arrays join
their leaf-encoded elements with spaces, maps join `k=v` pairs with
spaces, other values encode as leaves. -/
def encodeRoot : Value → Except Err String
  | .arr _ vs => (encodeListLeaf vs).map (fun ss => String.intercalate " " ss)
  | .map _ kvs => (encodeKVLeaf kvs).map (fun ss => String.intercalate " " ss)
  | v => encodeLeaf v

/-- Environment assembly of `OutputExpr.Resolve` (src/types/output.go
lines 160-167): every attribute is root-encoded into `key=value`; the
first failing encoding aborts.  Go iterates its map in unspecified
order; the embedding uses the association-list order, which the claims
do not depend on. -/
def encodeEnvPairs : List (String × Value) → Except Err (List (String × String))
  | [] => .ok []
  | (k, v) :: rest =>
      match encodeRoot v with
      | .error e => .error e
      | .ok s => (encodeEnvPairs rest).map ((k, s) :: ·)

/-- `OutputExpr.Resolve` from the point where the attribute expression
has resolved to a map (src/types/output.go lines 47-192).  Fingerprint,
required `name` attribute, registry append, cache probe, then the build:
remove the candidate, select script and working directory, encode the
environment, create the log, run the command; the deferred cleanups
remove the temporary directory and — on any non-success exit after the
initial removal — the candidate store directory.  Effects are returned
as the action trace alongside the result. -/
def outputMaterialize (ev : EvalCfg) (w : World) (pos : Position) (attrs : Expr)
    (result : List (String × Value)) (resultPos : Position) (deps : List PathV) :
    List FsAction × Except Err (Value × List PathV) :=
  let hashsum := outputHashsum w attrs result
  match getStrValue "output" result resultPos "name" with
  | .error e => ([], .error e)
  | .ok (_, n) =>
    let hashstr := bytesToHex hashsum ++ "-" ++ n
    let outdir := pathJoin (pathJoin w.cwd ev.cacheDir) hashstr
    if (ev.dryRun || w.pathExists outdir) && !ev.force then
      let pv := PathV.mk Position.empty outdir deps
      ([.register hashstr], .ok (.path pv, [pv]))
    else
      let enter : List FsAction := [.register hashstr, .removeAll outdir]
      match buildCmdline ev result resultPos pos with
      | .error e => (enter ++ [.removeAll outdir], .error e)
      | .ok (cmdline, tokenPos) =>
        match selectBuilddir w result resultPos with
        | .error e => (enter ++ [.removeAll outdir], .error e)
        | .ok (builddir, mkActs, delTemp) =>
          let tempCleanup : List FsAction := if delTemp then [.removeAll builddir] else []
          match encodeEnvPairs result with
          | .error e => (enter ++ mkActs ++ tempCleanup ++ [.removeAll outdir], .error e)
          | .ok _ =>
            let logpath := pathJoin ev.logDir (hashstr ++ ".log")
            let pre := enter ++ mkActs ++ [FsAction.createLog logpath, FsAction.exec cmdline builddir]
            if w.execOk cmdline then
              let pv := PathV.mk Position.empty outdir deps
              (pre ++ tempCleanup, .ok (.path pv, [pv]))
            else
              (pre ++ tempCleanup ++ [.removeAll outdir],
               .error (.buildFailed tokenPos hashstr logpath))

/-- `errors.Join` over the collected per-element errors of
`ArrayValue.Link`: nil when none failed, the joined list otherwise. -/
def errsToOpt : List Err → Option Err
  | [] => none
  | es => some (.joined es)

mutual
/-- The `Link` methods (PathExpr.Link src/types/output.go lines 380-389,
ArrayValue.Link src/unnamed/part_006 lines 205-213, and the Link methods
of StringValue, NumberExpr, BooleanExpr, MapValue, LambdaExpr): a path
with a non-empty link name refuses to clobber an existing non-symlink,
otherwise removes the entry and creates the symlink; with an empty link
name it does nothing.  An array recurses into its elements with `-i`
suffixes when the link name is non-empty, and does nothing otherwise.
Every other variant returns its cannot-symlink error unconditionally. -/
def linkValue (w : World) : Value → String → List FsAction × Option Err
  | .str p _, _ => ([], some (.cannotLink p "StringValue"))
  | .num p _, _ => ([], some (.cannotLink p "NumberExpr"))
  | .bool p _, _ => ([], some (.cannotLink p "BooleanExpr"))
  | .map p _, _ => ([], some (.cannotLink p "MapValue"))
  | .lam p _ _, _ => ([], some (.cannotLink p "LambdaExpr"))
  | .path pv, resname =>
      if resname = "" then ([], none)
      else
        match w.lstatIsSymlink resname with
        | some false => ([], some .refusingToClobber)
        | _ => ([.removeEntry resname, .symlink pv.name resname], none)
  | .arr _ vs, resname =>
      if resname = "" then ([], none)
      else
        let (acts, errs) := linkList w vs resname 0
        (acts, errsToOpt errs)
/-- Per-element projection of `ArrayValue.Link`, collecting actions and
the non-nil errors in element order. -/
def linkList (w : World) : List Value → String → Nat → List FsAction × List Err
  | [], _, _ => ([], [])
  | v :: vs, resname, i =>
      let (a1, e1) := linkValue w v (resname ++ "-" ++ toString i)
      let (a2, e2) := linkList w vs resname (i + 1)
      (a1 ++ a2, (match e1 with | some e => [e] | none => []) ++ e2)
end

/-- `parallelResolve` (src/unnamed/part_006 lines 12-47): every element
expression is resolved with the same scope; the values keep the element
order, the path dependencies are concatenated, and the per-element
errors are joined — any failure fails the whole list.  The resolver for
one expression is passed in by the caller. -/
def parallelResolve (f : Expr → Except Err (Value × List PathV)) (exprs : List Expr) :
    Except Err (List Value × List PathV) :=
  let rs := exprs.map f
  match rs.filterMap (fun r => match r with | .error e => some e | .ok _ => none) with
  | [] => .ok (rs.filterMap (fun r => match r with | .ok (v, _) => some v | .error _ => none),
               rs.foldl (fun acc r => match r with | .ok (_, ps) => acc ++ ps | .error _ => acc) [])
  | es => .error (.joined es)

/-- The entry-pairing loop of `MapExpr.Resolve` (src/unnamed/part_006
lines 67-74): the resolved entry list alternates keys and values; each
key must be a string, and the binding is assigned into the accumulated
map (overwriting).  An odd-length list is a Go runtime out-of-range
panic. -/
def buildEntries (acc : List (String × Value)) : List Value → Except Err (List (String × Value))
  | [] => .ok acc
  | [_] => .error .indexPanic
  | k :: v :: rest =>
      match k with
      | .str _ s => buildEntries (insertA acc s v) rest
      | _ => .error (.expectedStringKey k.position)

/-- The extends loop of `MapExpr.Resolve` (src/unnamed/part_006 lines
76-87): each `with` clause is resolved in textual order, must yield a
map, and its bindings are `maps.Copy`-ed over the accumulated map —
overwriting keys already present; its dependencies are appended. -/
def applyExtends (f : Expr → Except Err (Value × List PathV)) (pos : Position)
    (acc : List (String × Value)) (deps : List PathV) :
    List Expr → Except Err (List (String × Value) × List PathV)
  | [] => .ok (acc, deps)
  | b :: rest =>
      match f b with
      | .error e => .error e
      | .ok (v, bdeps) =>
          match v with
          | .map _ bvals => applyExtends f pos (copyA acc bvals) (deps ++ bdeps) rest
          | _ => .error (.cannotExtend pos)

/-- The chunk loop of `StringExpr.Resolve` (src/types/output.go lines
236-262): literal chunks are written through, interpolated
sub-expressions must resolve to strings (written verbatim) or paths
(their name written), anything else is the interpolation error at the
string expression's position; dependencies accumulate in chunk order. -/
def resolveChunks (f : Expr → Except Err (Value × List PathV)) (pos : Position) :
    List (String × Option Expr) → Except Err (String × List PathV)
  | [] => .ok ("", [])
  | (s, none) :: rest => (resolveChunks f pos rest).map (fun (acc, ds) => (s ++ acc, ds))
  | (s, some e) :: rest =>
      match f e with
      | .error er => .error er
      | .ok (v, ds) =>
          match v with
          | .str _ c => (resolveChunks f pos rest).map (fun (acc, ds2) => (s ++ c ++ acc, ds ++ ds2))
          | .path pv => (resolveChunks f pos rest).map (fun (acc, ds2) => (s ++ pv.name ++ acc, ds ++ ds2))
          | _ => .error (.nonStringInterpolation pos)

/-- Formal binding of `VarExpr.Resolve` (src/types/reference.go lines
28-34): the lambda's captured scope, cloned when there are formals, with
each formal bound to its argument expression carrying the caller's
scope. -/
def bindArgs (vscope : Scope) (formals : List String) (args : List Expr) (caller : Scope) : Scope :=
  (formals.zip args).foldl (fun sc p => insertA sc p.1 (Variable.mk p.2 caller)) vscope

/-- The evaluator `Resolve`, per variant as implemented in
src/types/reference.go, src/unnamed/part_006 and src/types/output.go,
with an explicit recursion fuel (Go recursion is unbounded; every
theorem below is uniform in the fuel).  Literals, paths and lambdas
resolve to themselves; arrays and maps resolve their elements through
`parallelResolve`; a map then pairs entries and applies its extends
clauses; a variable reference looks the name up, applies a lambda
binding after the arity check, and otherwise resolves the bound
expression in its captured scope; attribute projection requires a map
and a present key; an output form resolves its attribute set to a map
and hands it to the materializer (whose action trace is instrumentation
and is dropped inside the evaluator). -/
def resolve (ev : EvalCfg) (w : World) : Nat → Scope → Expr → Except Err (Value × List PathV)
  | 0, _, _ => .error .outOfFuel
  | fuel + 1, scope, e =>
    match e with
    | .str pos chunks =>
        (resolveChunks (resolve ev w fuel scope) pos chunks).map
          (fun (s, ds) => (.str pos s, ds))
    | .num pos v => .ok (.num pos v, [])
    | .bool pos v => .ok (.bool pos v, [])
    | .path p => .ok (.path p, [])
    | .lam pos args body => .ok (.lam pos args body, [])
    | .arr pos exprs =>
        (parallelResolve (resolve ev w fuel scope) exprs).map
          (fun (vs, ds) => (.arr pos vs, ds))
    | .map pos ext entries =>
        match parallelResolve (resolve ev w fuel scope) entries with
        | .error e => .error e
        | .ok (vals, ds) =>
            match buildEntries [] vals with
            | .error e => .error e
            | .ok evals =>
                match applyExtends (resolve ev w fuel scope) pos evals ds ext with
                | .error e => .error e
                | .ok (final, ds2) => .ok (.map pos final, ds2)
    | .var pos name args =>
        match lookupA scope name with
        | none => .error (.notInScope pos name)
        | some (.mk ve vs) =>
            match ve with
            | .lam _ formals body =>
                if formals.length ≠ args.length then
                  .error (.arityMismatch pos formals.length args.length)
                else resolve ev w fuel (bindArgs vs formals args scope) body
            | _ => resolve ev w fuel vs ve
    | .attr _ base name =>
        match resolve ev w fuel scope base with
        | .error e => .error e
        | .ok (v, ds) =>
            match v with
            | .map mpos mvals =>
                match lookupA mvals name with
                | some v2 => .ok (v2, ds)
                | none => .error (.noSuchAttribute mpos name)
            | other => .error (.noAttributes other.position)
    | .output pos attrs =>
        match resolve ev w fuel scope attrs with
        | .error e => .error e
        | .ok (v, ds) =>
            match v with
            | .map mpos mvals => (outputMaterialize ev w pos attrs mvals mpos ds).2
            | _ => .error (.outputNonMap pos)

/-- The driver's flag fixup (src/bake.go lines 52-53): when both `--dry`
and `--force` are set, `--force` is disabled; the resulting force flag. -/
def applyDryForceFixup (dryRun force : Bool) : Bool :=
  if dryRun && force then false else force

/-- First-some choice on options, for stating map-copy lookups. -/
def orO {α : Type} : Option α → Option α → Option α
  | some v, _ => some v
  | none, o => o

/-- The type assertion `expr.Expr.(LambdaExpr)` of src/types/reference.go
line 21: is the expression a lambda literal. -/
def Expr.isLambda : Expr → Bool
  | .lam _ _ _ => true
  | _ => false

/-- The `hashstr` of `OutputExpr.Resolve` (src/types/output.go line 71):
the fingerprint in lowercase hexadecimal with `-<name>` appended. -/
def candidateHashstr (w : World) (attrs : Expr) (result : List (String × Value)) (n : String) :
    String :=
  bytesToHex (outputHashsum w attrs result) ++ "-" ++ n

/-- The candidate store path `outdir` of `OutputExpr.Resolve`
(src/types/output.go line 76): `path.Join(cwd, CacheDir, hashstr)`. -/
def candidatePath (ev : EvalCfg) (w : World) (attrs : Expr) (result : List (String × Value))
    (n : String) : String :=
  pathJoin (pathJoin w.cwd ev.cacheDir) (candidateHashstr w attrs result n)

/-- A sample source position. -/
def P1 : Position := ⟨"t.zon", 1, 1⟩

/-- A second, distinct sample source position. -/
def P2 : Position := ⟨"u.zon", 9, 4⟩

/-- Default evaluator configuration for the concrete instances. -/
def cfg1 : EvalCfg := ⟨false, false, false, "cache/store", "cache/log", "sh"⟩

/-- The configuration with `--force` set. -/
def cfgF : EvalCfg := ⟨true, false, false, "cache/store", "cache/log", "sh"⟩

/-- The configuration with `--dry` set. -/
def cfgD : EvalCfg := ⟨false, true, false, "cache/store", "cache/log", "sh"⟩

/-- A world where no path exists, stats fail, the rng yields 7 and every
command exits non-zero. -/
def w1 : World := ⟨"/w", "/tmp/zon-1", fun _ => false, fun _ => none, fun _ => none,
  fun _ => 7, fun _ => false⟩

/-- The world `w1` with a different random stream (a second run). -/
def w2 : World := ⟨"/w", "/tmp/zon-1", fun _ => false, fun _ => none, fun _ => none,
  fun _ => 9, fun _ => false⟩

/-- The world `w1` where every path exists (a warm store). -/
def wExist : World := ⟨"/w", "/tmp/zon-1", fun _ => true, fun _ => none, fun _ => none,
  fun _ => 7, fun _ => false⟩

/-- A stat function that fails on every path. -/
def stat1 : String → Option String := fun _ => none

/-- A literal (interpolation-free) string expression. -/
def key1 (s : String) : Expr := .str P1 [(s, none)]

/-- The base map `{ a: "y" }` of the with-clause instance. -/
def base1 : Expr := .map P1 [] [key1 "a", key1 "y"]

/-- The map `{ a: "x", with { a: "y" } }`. -/
def m1 : Expr := .map P1 [base1] [key1 "a", key1 "x"]

/-- The map `{ a: 1, b: 2 }`. -/
def mapA : Expr := .map P1 [] [key1 "a", .num P1 1, key1 "b", .num P1 2]

/-- The map `{ b: 2, a: 1 }`: the entry list of `mapA` with its two
key/value entries transposed. -/
def mapB : Expr := .map P1 [] [key1 "b", .num P1 2, key1 "a", .num P1 1]

/-- A scope binding `x` to the unary lambda `fn(a) 1`. -/
def scope1 : Scope := [("x", Variable.mk (.lam P1 ["a"] (.num P1 1)) [])]

/-- A sample unresolved output attribute expression. -/
def attrs1 : Expr := .map P1 [] [key1 "name", key1 "hello"]

/-- A resolved attribute set with `name` and an `output` script. -/
def resNamed : List (String × Value) :=
  [("name", .str P1 "hello"), ("output", .str P1 "echo hi")]

/-- A resolved attribute set with `impure = true`. -/
def resImp : List (String × Value) :=
  [("name", .str P1 "x"), ("impure", .bool P1 true), ("output", .str P1 "date")]

/-- A resolved attribute set whose `args` array is empty. -/
def resEmptyArgs : List (String × Value) :=
  [("name", .str P1 "x"), ("output", .str P1 "echo hi"), ("args", .arr P1 [])]

/-- A resolved attribute set with a three-element `args` array. -/
def resArgs : List (String × Value) :=
  [("name", .str P1 "x"), ("output", .str P1 "echo hi"),
   ("args", .arr P1 [.str P1 "prog", .str P1 "a1", .str P1 "a2"])]

theorem lookupA_insertA {α : Type} (l : List (String × α)) (k0 k : String) (v0 : α) :
    lookupA (insertA l k0 v0) k = if k0 = k then some v0 else lookupA l k := by
  induction l with
  | nil => simp [insertA, lookupA]
  | cons hd tl ih =>
    obtain ⟨k', v'⟩ := hd
    simp only [insertA]
    by_cases h1 : k' = k0
    · subst h1
      by_cases h2 : k' = k <;> simp [lookupA, h2]
    · simp only [if_neg h1, lookupA]
      by_cases h2 : k' = k
      · subst h2
        have : ¬ k0 = k' := fun h => h1 h.symm
        simp [this]
      · simp [h2, ih]

theorem lookupA_append {α : Type} (l1 l2 : List (String × α)) (k : String) :
    lookupA (l1 ++ l2) k = orO (lookupA l1 k) (lookupA l2 k) := by
  induction l1 with
  | nil => simp [lookupA, orO]
  | cons hd tl ih =>
    obtain ⟨k', v'⟩ := hd
    by_cases h : k' = k <;> simp [lookupA, h, ih, orO]

theorem lookupA_copyA {α : Type} (src dst : List (String × α)) (k : String) :
    lookupA (copyA dst src) k = orO (lookupA src.reverse k) (lookupA dst k) := by
  induction src generalizing dst with
  | nil => simp [copyA, lookupA, orO]
  | cons hd src ih =>
    obtain ⟨k0, v0⟩ := hd
    have hstep : copyA dst ((k0, v0) :: src) = copyA (insertA dst k0 v0) src := rfl
    rw [hstep, ih, List.reverse_cons, lookupA_append, lookupA_insertA]
    cases hsrc : lookupA src.reverse k with
    | some v => simp [orO]
    | none =>
      by_cases h : k0 = k <;> simp [orO, lookupA, h]

theorem lookupA_reverse_none {α : Type} (l : List (String × α)) (k : String)
    (h : lookupA l k = none) : lookupA l.reverse k = none := by
  induction l with
  | nil => simp [lookupA]
  | cons hd tl ih =>
    obtain ⟨k', v'⟩ := hd
    simp only [lookupA] at h
    by_cases h1 : k' = k
    · simp [h1] at h
    · simp only [if_neg h1] at h
      rw [List.reverse_cons, lookupA_append, ih h]
      simp [lookupA, h1, orO]

theorem hashList_congr (stat : String → Option String) (es es' : List Expr)
    (h : es.map (hashValue stat) = es'.map (hashValue stat)) :
    hashList stat es = hashList stat es' := by
  induction es generalizing es' with
  | nil => cases es' <;> simp_all [hashList]
  | cons e tl ih =>
    cases es' with
    | nil => simp at h
    | cons e' tl' =>
      simp only [List.map_cons, List.cons.injEq] at h
      simp [hashList, h.1, ih tl' h.2]

theorem hexDigit_contains (n : Nat) : hexDigits.contains (hexDigit n) = true := by
  unfold hexDigit
  by_cases h : n < 16
  · interval_cases n <;> decide
  · rw [List.getD_eq_default]
    · decide
    · simpa [hexDigits] using Nat.le_of_not_lt h

theorem isLowerHex_bytesToHex (bs : List Nat) : isLowerHex (bytesToHex bs) = true := by
  unfold isLowerHex bytesToHex
  show ((bs.map byteToHexChars).flatten).all (fun c => hexDigits.contains c) = true
  induction bs with
  | nil => rfl
  | cons b tl ih =>
    simp only [List.map_cons, List.flatten_cons, List.all_append, ih, Bool.and_true]
    simp only [byteToHexChars, List.all_cons, List.all_nil, Bool.and_true]
    rw [hexDigit_contains, hexDigit_contains]
    rfl

/-- C1 (amended): resolving a map with extends clauses gives
LAST-writer-wins, not first-writer-wins — `MapExpr.Resolve` builds the
map from the explicit entries and then `maps.Copy`-es each `with`
clause's resolved map over it in left-to-right order, overwriting keys
already present.  For every map `{ entries, with B }` whose entries and
clause resolve, the result is the copy of B's bindings over the explicit
entries: a key bound by B ends with B's value even when it is an
explicit entry, and a key not bound by B keeps the explicit entry's
value (the fall-through half of the original claim does hold). -/
theorem mapExtendsLastWriterWins (fuel : Nat) (ev : EvalCfg) (w : World) (scope : Scope)
    (pos : Position) (B : Expr) (entriesE : List Expr) (vals : List Value) (deps : List PathV)
    (entries : List (String × Value)) (bpos : Position) (bvals : List (String × Value))
    (bdeps : List PathV)
    (hv : parallelResolve (resolve ev w fuel scope) entriesE = .ok (vals, deps))
    (he : buildEntries [] vals = .ok entries)
    (hb : resolve ev w fuel scope B = .ok (.map bpos bvals, bdeps)) :
    resolve ev w (fuel + 1) scope (.map pos [B] entriesE) =
      .ok (.map pos (copyA entries bvals), deps ++ bdeps) ∧
    (∀ k, lookupA (copyA entries bvals) k = orO (lookupA bvals.reverse k) (lookupA entries k)) ∧
    (∀ k, lookupA bvals k = none → lookupA (copyA entries bvals) k = lookupA entries k) := by
  refine ⟨?_, fun k => lookupA_copyA bvals entries k, fun k hk => ?_⟩
  · simp only [resolve, hv, he, applyExtends, hb]
  · rw [lookupA_copyA, lookupA_reverse_none bvals k hk]
    simp [orO]

/-- C1 counterexample: the map `{ a: "x", with { a: "y" } }` resolves to
a map whose `a` binding is the with-clause's `"y"`, not the explicit
entry's `"x"` — the claimed first-writer-wins precedence fails. -/
theorem mapExtendsCounterexample :
    resolve cfg1 w1 3 [] m1 = .ok (.map P1 [("a", .str P1 "y")], []) ∧
    Value.str P1 "y" ≠ Value.str P1 "x" := by
  refine ⟨rfl, fun h => ?_⟩
  injection h with h1 h2
  exact absurd h2 (by decide)

/-- C1 witness: the amended theorem applied to
`{ a: "x", with { a: "y" } }` in the empty scope. -/
theorem mapExtendsWitness :
    resolve cfg1 w1 3 [] m1 =
      .ok (.map P1 (copyA [("a", Value.str P1 "x")] [("a", Value.str P1 "y")]), []) ∧
    lookupA (copyA [("a", Value.str P1 "x")] [("a", Value.str P1 "y")]) "a" =
      some (Value.str P1 "y") := by
  have h := mapExtendsLastWriterWins 2 cfg1 w1 [] P1 base1 [key1 "a", key1 "x"]
    [Value.str P1 "a", Value.str P1 "x"] [] [("a", Value.str P1 "x")] P1
    [("a", Value.str P1 "y")] []
    rfl rfl rfl
  exact ⟨h.1, by rw [h.2.1 "a"]; rfl⟩

/-- C2 (amended): the fingerprint of a map expression is NOT invariant
under permutation of its textual entry order — `MapExpr.hashValue` emits
the extends clauses and the entries in source order, not sorted by key.
The emitted stream (and hence the FNV-1 fingerprint) is determined by,
and only by, the ordered per-element streams: two map expressions whose
extends lists and entry lists emit pointwise-equal streams in the same
order fingerprint identically, irrespective of their positions. -/
theorem mapHashOrderDetermined (stat : String → Option String) (p p' : Position)
    (ext ext' entries entries' : List Expr)
    (hext : ext.map (hashValue stat) = ext'.map (hashValue stat))
    (hent : entries.map (hashValue stat) = entries'.map (hashValue stat)) :
    hashValue stat (.map p ext entries) = hashValue stat (.map p' ext' entries') ∧
    fnv128 (strBytes (hashValue stat (.map p ext entries))) =
      fnv128 (strBytes (hashValue stat (.map p' ext' entries'))) := by
  have hs : hashValue stat (.map p ext entries) = hashValue stat (.map p' ext' entries') := by
    simp only [hashValue, hashList_congr stat ext ext' hext,
      hashList_congr stat entries entries' hent]
  exact ⟨hs, by rw [hs]⟩

/-- C2 counterexample: `{ a: 1, b: 2 }` and its entry-transposed
reordering `{ b: 2, a: 1 }` emit different hash byte streams, and their
FNV-1 128-bit fingerprints differ. -/
theorem mapHashPermutationCounterexample :
    hashValue stat1 mapA ≠ hashValue stat1 mapB ∧
    fnv128 (strBytes (hashValue stat1 mapA)) ≠ fnv128 (strBytes (hashValue stat1 mapB)) := by
  constructor <;> decide

/-- C2 witness: the amended theorem applied to two copies of `{ a: 1 }`
written at different source positions. -/
theorem mapHashOrderWitness :
    hashValue stat1 (.map P1 [] [key1 "a", .num P1 1]) =
      hashValue stat1 (.map P2 [] [key1 "a", .num P1 1]) :=
  (mapHashOrderDetermined stat1 P1 P2 [] [] [key1 "a", .num P1 1] [key1 "a", .num P1 1]
    rfl rfl).1

/-- C4 (amended): a `Var` reference whose binding is a lambda is always
applied, never returned as a value — `VarExpr.Resolve` checks the formal
count against the supplied argument count (zero for a bare reference)
and fails with the arity-mismatch error when they differ, so a bare
`Var` on a lambda binding applies a nullary lambda and fails on any
other; a non-lambda binding resolves in its captured scope, and lookup
of an unbound name fails with the not-in-scope error. -/
theorem varResolveApplies (fuel : Nat) (ev : EvalCfg) (w : World) (scope : Scope)
    (pos : Position) (name : String) (args : List Expr) :
    (lookupA scope name = none →
      resolve ev w (fuel + 1) scope (.var pos name args) = .error (.notInScope pos name)) ∧
    (∀ ve vs, lookupA scope name = some (.mk ve vs) →
      (∀ lpos formals body, ve = .lam lpos formals body →
        (formals.length ≠ args.length →
          resolve ev w (fuel + 1) scope (.var pos name args) =
            .error (.arityMismatch pos formals.length args.length)) ∧
        (formals.length = args.length →
          resolve ev w (fuel + 1) scope (.var pos name args) =
            resolve ev w fuel (bindArgs vs formals args scope) body)) ∧
      (ve.isLambda = false →
        resolve ev w (fuel + 1) scope (.var pos name args) = resolve ev w fuel vs ve)) := by
  refine ⟨fun h => by simp only [resolve, h],
    fun ve vs h => ⟨fun lpos formals body hve => ?_, fun hnl => ?_⟩⟩
  · subst hve
    refine ⟨fun hne => ?_, fun heq => ?_⟩
    · simp only [resolve, h, if_pos hne]
    · simp only [resolve, h]
      rw [if_neg (by omega)]
  · cases ve <;> simp [Expr.isLambda] at hnl <;> simp only [resolve, h]

/-- C4 counterexample: with `x` bound to the unary lambda `fn(a) 1`, the
bare reference `x` resolves to the arity-mismatch error (1 formal, 0
arguments), not to the lambda value itself as claimed. -/
theorem varBareLambdaCounterexample :
    resolve cfg1 w1 2 scope1 (.var P1 "x" []) = .error (.arityMismatch P1 1 0) ∧
    resolve cfg1 w1 2 scope1 (.var P1 "x" []) ≠
      .ok (.lam P1 ["a"] (.num P1 1), []) :=
  ⟨rfl, fun h => nomatch h⟩

/-- C4 witness: the amended theorem applied to an unbound name, to a
bare reference on a unary lambda binding, and to a correctly-applied
call. -/
theorem varResolveWitness :
    resolve cfg1 w1 2 [] (.var P1 "y" []) = .error (.notInScope P1 "y") ∧
    resolve cfg1 w1 2 scope1 (.var P1 "x" []) = .error (.arityMismatch P1 1 0) ∧
    resolve cfg1 w1 2 scope1 (.var P1 "x" [.num P1 5]) =
      resolve cfg1 w1 1 (bindArgs [] ["a"] [.num P1 5] scope1) (.num P1 1) :=
  ⟨(varResolveApplies 1 cfg1 w1 [] P1 "y" []).1 rfl,
   (((varResolveApplies 1 cfg1 w1 scope1 P1 "x" []).2 _ _ rfl).1 P1 ["a"] (.num P1 1) rfl).1
     (by decide),
   (((varResolveApplies 1 cfg1 w1 scope1 P1 "x" [.num P1 5]).2 _ _ rfl).1 P1 ["a"] (.num P1 1)
     rfl).2 (by decide)⟩

/-- C5 (amended): the materializer requires a `name` attribute that
resolved to a string — `OutputExpr.Resolve` calls
`GetValue[StringValue]` on `name` and returns its error when the
attribute is missing, rather than materializing under a bare hex path.
When the attribute is present, every path through the materializer first
registers the candidate `<hex-fingerprint>-<name>`, whose fingerprint
part is lowercase hexadecimal. -/
theorem outputNameRequired (ev : EvalCfg) (w : World) (pos : Position) (attrs : Expr)
    (result : List (String × Value)) (resultPos : Position) (deps : List PathV) :
    (lookupA result "name" = none →
      outputMaterialize ev w pos attrs result resultPos deps =
        ([], .error (.noAttribute resultPos "output" "name"))) ∧
    (∀ np n, lookupA result "name" = some (.str np n) →
      (outputMaterialize ev w pos attrs result resultPos deps).1.head? =
        some (.register (candidateHashstr w attrs result n)) ∧
      isLowerHex (bytesToHex (outputHashsum w attrs result)) = true) := by
  constructor
  · intro h
    simp only [outputMaterialize, getStrValue, h]
  · intro np n h
    refine ⟨?_, isLowerHex_bytesToHex _⟩
    simp only [outputMaterialize, getStrValue, h, candidateHashstr]
    split
    · rfl
    · split
      · rfl
      · split
        · rfl
        · split
          · rfl
          · split <;> rfl

/-- C5 counterexample: a resolved attribute set with an `output` script
but no `name` attribute makes the materializer fail with the
no-attribute error instead of materializing under the bare hex
fingerprint. -/
theorem outputNameMissingCounterexample :
    outputMaterialize cfg1 w1 P1 attrs1 [("output", Value.str P1 "echo hi")] P1 [] =
      ([], .error (.noAttribute P1 "output" "name")) := rfl

/-- C5 witness: the amended theorem applied to an attribute set without
`name` and to one with `name = "hello"`. -/
theorem outputNameRequiredWitness :
    outputMaterialize cfg1 w1 P1 attrs1 [("output", Value.str P1 "echo hi")] P1 [] =
      ([], .error (.noAttribute P1 "output" "name")) ∧
    (outputMaterialize cfg1 w1 P1 attrs1 resNamed P1 []).1.head? =
      some (.register (candidateHashstr w1 attrs1 resNamed "hello")) ∧
    isLowerHex (bytesToHex (outputHashsum w1 attrs1 resNamed)) = true :=
  ⟨(outputNameRequired cfg1 w1 P1 attrs1 [("output", Value.str P1 "echo hi")] P1 []).1 rfl,
   (outputNameRequired cfg1 w1 P1 attrs1 resNamed P1 []).2 P1 "hello" rfl⟩

/-- C6: when the resolved attribute set contains `impure = true`, the
fingerprint is the next sixteen bytes of the run's random stream — the
full output width of the 128-bit hash — so it varies with the stream;
when it does not, the fingerprint is computed from the unresolved
attribute expression's hash stream alone, so two runs whose path-stat
inputs agree produce byte-identical fingerprints whatever their random
streams. -/
theorem outputFingerprintImpurity (w w' : World) (attrs : Expr)
    (result : List (String × Value)) :
    (isImpure result = true →
      outputHashsum w attrs result = (List.range 16).map w.rngByte ∧
      (outputHashsum w attrs result).length = 16) ∧
    (isImpure result = false → w.statStr = w'.statStr →
      outputHashsum w attrs result = outputHashsum w' attrs result) := by
  constructor
  · intro h
    exact ⟨by simp [outputHashsum, h], by simp [outputHashsum, h]⟩
  · intro h hs
    simp [outputHashsum, h, hs]

/-- C6 witness: the theorem applied to an `impure = true` attribute set
and to a pure one under two worlds that differ only in their random
streams. -/
theorem outputFingerprintImpurityWitness :
    (outputHashsum w1 attrs1 resImp = (List.range 16).map w1.rngByte ∧
      (outputHashsum w1 attrs1 resImp).length = 16) ∧
    outputHashsum w1 attrs1 resNamed = outputHashsum w2 attrs1 resNamed :=
  ⟨(outputFingerprintImpurity w1 w2 attrs1 resImp).1 rfl,
   (outputFingerprintImpurity w1 w2 attrs1 resNamed).2 rfl rfl⟩

/-- C7: when the interpreter exits non-zero, the materializer's trace
ends with the removal of the candidate store directory — after the exec
and the temporary-directory cleanup, before the error is returned — and
the returned build-failed error carries the position of the failing
`output`/`builder` attribute, the fingerprint string, and the log file
path. -/
theorem buildFailureCleanup (ev : EvalCfg) (w : World) (pos : Position) (attrs : Expr)
    (result : List (String × Value)) (resultPos : Position) (deps : List PathV)
    (np : Position) (n : String) (cmdline : List String) (tokenPos : Position)
    (builddir : String) (mkActs : List FsAction) (delTemp : Bool)
    (envPairs : List (String × String))
    (hname : lookupA result "name" = some (.str np n))
    (hprobe : ((ev.dryRun || w.pathExists (candidatePath ev w attrs result n)) && !ev.force)
      = false)
    (hcmd : buildCmdline ev result resultPos pos = .ok (cmdline, tokenPos))
    (hdir : selectBuilddir w result resultPos = .ok (builddir, mkActs, delTemp))
    (henv : encodeEnvPairs result = .ok envPairs)
    (hrun : w.execOk cmdline = false) :
    outputMaterialize ev w pos attrs result resultPos deps =
      ([.register (candidateHashstr w attrs result n),
        .removeAll (candidatePath ev w attrs result n)]
        ++ mkActs
        ++ [.createLog (pathJoin ev.logDir (candidateHashstr w attrs result n ++ ".log")),
            .exec cmdline builddir]
        ++ (if delTemp then [FsAction.removeAll builddir] else [])
        ++ [.removeAll (candidatePath ev w attrs result n)],
       .error (.buildFailed tokenPos (candidateHashstr w attrs result n)
                 (pathJoin ev.logDir (candidateHashstr w attrs result n ++ ".log")))) := by
  simp only [candidatePath, candidateHashstr] at hprobe ⊢
  simp only [outputMaterialize, getStrValue, hname, hprobe, if_false, Bool.false_eq_true,
    hcmd, hdir, henv, hrun]

/-- C7 witness: the theorem applied to a forced build whose interpreter
fails, with a temporary working directory. -/
theorem buildFailureCleanupWitness :
    outputMaterialize cfgF w1 P1 attrs1 resNamed P1 [] =
      ([.register (candidateHashstr w1 attrs1 resNamed "hello"),
        .removeAll (candidatePath cfgF w1 attrs1 resNamed "hello")]
        ++ [.mkdirTemp "/tmp/zon-1"]
        ++ [.createLog (pathJoin "cache/log"
              (candidateHashstr w1 attrs1 resNamed "hello" ++ ".log")),
            .exec ["sh", "-e", "-c", "echo hi", "builder"] "/tmp/zon-1"]
        ++ [FsAction.removeAll "/tmp/zon-1"]
        ++ [.removeAll (candidatePath cfgF w1 attrs1 resNamed "hello")],
       .error (.buildFailed P1 (candidateHashstr w1 attrs1 resNamed "hello")
                 (pathJoin "cache/log"
                   (candidateHashstr w1 attrs1 resNamed "hello" ++ ".log")))) := by
  have h := buildFailureCleanup cfgF w1 P1 attrs1 resNamed P1 [] P1 "hello"
    ["sh", "-e", "-c", "echo hi", "builder"] P1 "/tmp/zon-1" [.mkdirTemp "/tmp/zon-1"] true
    [("name", "hello"), ("output", "echo hi")] rfl rfl rfl rfl rfl rfl
  simpa using h

/-- C8: when the candidate path exists and force is unset the
materializer returns it as a path value with only the registry append in
its trace — no removal, no exec; in dry-run mode (force unset) the same
happens for any world, the existence probe notwithstanding; and the
driver disables force when both the dry and force flags are set. -/
theorem cacheProbeReturnsPath (ev : EvalCfg) (w : World) (pos : Position) (attrs : Expr)
    (result : List (String × Value)) (resultPos : Position) (deps : List PathV)
    (np : Position) (n : String)
    (hname : lookupA result "name" = some (.str np n)) :
    (w.pathExists (candidatePath ev w attrs result n) = true → ev.force = false →
      outputMaterialize ev w pos attrs result resultPos deps =
        ([.register (candidateHashstr w attrs result n)],
         .ok (.path (PathV.mk Position.empty (candidatePath ev w attrs result n) deps),
              [PathV.mk Position.empty (candidatePath ev w attrs result n) deps]))) ∧
    (ev.dryRun = true → ev.force = false →
      outputMaterialize ev w pos attrs result resultPos deps =
        ([.register (candidateHashstr w attrs result n)],
         .ok (.path (PathV.mk Position.empty (candidatePath ev w attrs result n) deps),
              [PathV.mk Position.empty (candidatePath ev w attrs result n) deps]))) ∧
    applyDryForceFixup true true = false := by
  refine ⟨fun hex hf => ?_, fun hd hf => ?_, rfl⟩
  · simp only [outputMaterialize, getStrValue, hname, candidatePath, candidateHashstr] at *
    rw [if_pos]
    rw [hex, hf]
    simp
  · simp only [outputMaterialize, getStrValue, hname, candidatePath, candidateHashstr] at *
    rw [if_pos]
    rw [hd, hf]
    simp

/-- C8 witness: the theorem applied to a warm store, to a dry run, and
the flag fixup at dry = force = true. -/
theorem cacheProbeWitness :
    outputMaterialize cfg1 wExist P1 attrs1 resNamed P1 [] =
      ([.register (candidateHashstr wExist attrs1 resNamed "hello")],
       .ok (.path (PathV.mk Position.empty (candidatePath cfg1 wExist attrs1 resNamed "hello") []),
            [PathV.mk Position.empty (candidatePath cfg1 wExist attrs1 resNamed "hello") []])) ∧
    outputMaterialize cfgD w1 P1 attrs1 resNamed P1 [] =
      ([.register (candidateHashstr w1 attrs1 resNamed "hello")],
       .ok (.path (PathV.mk Position.empty (candidatePath cfgD w1 attrs1 resNamed "hello") []),
            [PathV.mk Position.empty (candidatePath cfgD w1 attrs1 resNamed "hello") []])) ∧
    applyDryForceFixup true true = false :=
  ⟨(cacheProbeReturnsPath cfg1 wExist P1 attrs1 resNamed P1 [] P1 "hello" rfl).1 rfl rfl,
   ((cacheProbeReturnsPath cfgD w1 P1 attrs1 resNamed P1 [] P1 "hello" rfl).2).1 rfl rfl,
   rfl⟩

/-- C9 (amended): when the `args` attribute is an array with at least
one element whose remaining elements are strings, those elements — the
first skipped — are appended to the command line; but when the array is
empty the slice `args.Values[1:]` is out of range, a Go runtime panic,
so the empty args array is not handled (the embedding models the panic
as an index-panic error). -/
theorem argsStepAppends (result : List (String × Value)) (resultPos : Position)
    (cmdline : List String) (tokenPos : Position) :
    (∀ ap v0 rest ss, lookupA result "args" = some (.arr ap (v0 :: rest)) →
      argStrings rest = .ok ss →
      appendArgs result resultPos cmdline tokenPos = .ok (cmdline ++ ss, tokenPos)) ∧
    (∀ ap, lookupA result "args" = some (.arr ap []) →
      appendArgs result resultPos cmdline tokenPos = .error .indexPanic) := by
  constructor
  · intro ap v0 rest ss h hs
    simp [appendArgs, h, hs]
  · intro ap h
    simp [appendArgs, h]

/-- C9 counterexample: a forced materialization whose attribute set
carries an empty `args` array fails with the index panic of
`args.Values[1:]` — the claimed totality over every args array,
including the empty one, fails. -/
theorem argsEmptyPanicCounterexample :
    (outputMaterialize cfgF w1 P1 attrs1 resEmptyArgs P1 []).2 = .error .indexPanic := rfl

/-- C9 witness: the amended theorem applied to a three-element args
array (elements after the first appended) and to the empty args array
(index panic). -/
theorem argsStepWitness :
    appendArgs resArgs P1 ["sh", "-e", "-c", "echo hi", "builder"] P1 =
      .ok (["sh", "-e", "-c", "echo hi", "builder"] ++ ["a1", "a2"], P1) ∧
    appendArgs resEmptyArgs P1 ["sh", "-e", "-c", "echo hi", "builder"] P1 =
      .error .indexPanic :=
  ⟨(argsStepAppends resArgs P1 ["sh", "-e", "-c", "echo hi", "builder"] P1).1
     P1 (.str P1 "prog") [.str P1 "a1", .str P1 "a2"] ["a1", "a2"] rfl rfl,
   (argsStepAppends resEmptyArgs P1 ["sh", "-e", "-c", "echo hi", "builder"] P1).2 P1 rfl⟩

/-- C10: invoked with the empty link name, the projector is a no-op on a
path value and on an array value — empty trace, nil error — while
string, number, boolean, map and lambda values still return their
cannot-symlink errors even though no link would be created. -/
theorem linkEmptyNameProjection (w : World) (pv : PathV) (p : Position) (vs : List Value)
    (s : String) (i : Int) (b : Bool) (kvs : List (String × Value)) (largs : List String)
    (body : Expr) :
    linkValue w (.path pv) "" = ([], none) ∧
    linkValue w (.arr p vs) "" = ([], none) ∧
    linkValue w (.str p s) "" = ([], some (.cannotLink p "StringValue")) ∧
    linkValue w (.num p i) "" = ([], some (.cannotLink p "NumberExpr")) ∧
    linkValue w (.bool p b) "" = ([], some (.cannotLink p "BooleanExpr")) ∧
    linkValue w (.map p kvs) "" = ([], some (.cannotLink p "MapValue")) ∧
    linkValue w (.lam p largs body) "" = ([], some (.cannotLink p "LambdaExpr")) :=
  ⟨rfl, rfl, rfl, rfl, rfl, rfl, rfl⟩
